import Mathlib

/-!
# Shallow embedding of `py_profiler`

The repository holds two near-duplicate implementations of one class,
`Profiler` (`src/python2/profiler/profiler.py` and
`src/python3/profiler/profiler.py`).  Both keep a dictionary of running
events (keyed by a uuid token) and a dictionary of finished events (keyed by
event name, each an insertion-ordered list).  The two differ only in the
statistics reducer `__get_stats_from_array`: python3 uses the `statistics`
module (`statistics.stdev` / `statistics.variance`, i.e. *sample*
statistics), python2 uses `numpy` (`numpy.std` / `numpy.var`, i.e.
*population* statistics).

Modelling choices:
* Python dictionaries become insertion-ordered association lists; `alookup`,
  `ainsert` and `aremove` transcribe `d[k]`, `d[k] = v` and `d.pop(k)`.
* `datetime.now()` becomes an integer timestamp in microseconds supplied to
  each operation by the environment; `timedelta.microseconds` — the field
  the code stores as the duration — is the normalised sub-second component
  of the delta, i.e. `delta % 1000000` with Python's floor/Euclidean
  remainder semantics (always in `[0, 999999]`, even for negative deltas).
* `uuid.uuid4()` is modelled as a fresh-token supply (a counter held in the
  state); per the spec its only contract is global uniqueness over the
  tracker's lifetime.
* Numeric aggregation is modelled in exact rational arithmetic (`ℚ`); the
  standard deviations, the one irrational quantity, are exposed as the real
  square root of the stored variance, which is what `statistics.stdev` and
  `numpy.std` compute.
* `Event.duration` is `Option Int` exactly as in the source (absent while
  running).  The stats path reads it with default `0`; on every reachable
  state each finished record has the field set (proved below), so the
  default is never observed.
-/

/-- Transcribes `Profiler.Event` (python3 `profiler.py` lines 33-42): a tracked event.
While the event is running, `end_time` and `duration` are `None`. -/
structure Event where
  name : String
  start_time : Int
  end_time : Option Int := none
  duration : Option Int := none
deriving DecidableEq, Repr

/-- Lookup in an insertion-ordered association list (Python `d[k]` /
`k in d`). -/
def alookup {α β : Type} [DecidableEq α] : List (α × β) → α → Option β
  | [], _ => none
  | (k, v) :: rest, a => if a = k then some v else alookup rest a

/-- Insert/overwrite in an insertion-ordered association list
(Python `d[k] = v`). -/
def ainsert {α β : Type} [DecidableEq α] : List (α × β) → α → β → List (α × β)
  | [], a, b => [(a, b)]
  | (k, v) :: rest, a, b =>
    if k = a then (a, b) :: rest else (k, v) :: ainsert rest a b

/-- Removal from an insertion-ordered association list (Python `d.pop(k)`). -/
def aremove {α β : Type} [DecidableEq α] : List (α × β) → α → List (α × β)
  | [], _ => []
  | (k, v) :: rest, a =>
    if k = a then aremove rest a else (k, v) :: aremove rest a

/-- The `Profiler` state: the private dictionaries `__running_events` and
`__finished_events`, plus the fresh-token counter modelling `uuid.uuid4()`. -/
structure Profiler where
  running : List (Nat × Event)
  finished : List (String × List Event)
  nextId : Nat
deriving DecidableEq, Repr

/-- Transcribes `Profiler.__init__`: both dictionaries start empty. -/
def Profiler.init : Profiler := { running := [], finished := [], nextId := 0 }

/-- Transcribes `Profiler.start` (python3 lines 52-60): mint a fresh token, store a new
running `Event` with the current wall-clock time, return the token. -/
def Profiler.start (p : Profiler) (name : String) (now : Int) :
    Nat × Profiler :=
  let id := p.nextId
  let event : Event := { name := name, start_time := now }
  (id, { running := ainsert p.running id event,
         finished := p.finished,
         nextId := p.nextId + 1 })

/-- Transcribes `Profiler.__save_finished_event` (python3 lines 99-103): append the
event to the list for its name, creating the list if absent.  A fresh name
is appended at the end of the dictionary, matching Python insertion order. -/
def saveFinishedEvent : List (String × List Event) → Event →
    List (String × List Event)
  | [], ev => [(ev.name, [ev])]
  | (n, evs) :: rest, ev =>
    if n = ev.name then (n, evs ++ [ev]) :: rest
    else (n, evs) :: saveFinishedEvent rest ev

/-- Transcribes `Profiler.stop` (python3 lines 62-74): if the token is unknown return
`None` and change nothing; otherwise pop the running entry, set `end_time`
to now, set `duration` to `(end_time - start_time).microseconds` — the
normalised sub-second microsecond component `delta % 1000000` — and save
the finished event. -/
def Profiler.stop (p : Profiler) (uid : Nat) (now : Int) :
    Option Event × Profiler :=
  match alookup p.running uid with
  | none => (none, p)
  | some event =>
    let event' : Event :=
      { event with end_time := some now,
                   duration := some ((now - event.start_time) % 1000000) }
    (some event', { p with running := aremove p.running uid,
                           finished := saveFinishedEvent p.finished event' })

/-- The result shape of `__get_stats_from_array`: an empty dictionary, the
single-value dictionary `{'value': float(values[0])}`, or the aggregate
dictionary with keys `len`, `min`, `max`, `mean`, `median`, `variance`
(the standard deviation under key `stdev` is the square root of the stored
variance; see `statisticsStdev` and `numpyStd`). -/
inductive StatsSummary where
  | empty : StatsSummary
  | single : ℚ → StatsSummary
  | aggregate : (len : Nat) → (minV maxV mean median variance : ℚ) →
      StatsSummary
deriving DecidableEq, Repr

/-- Python builtin `min` over a nonempty list (junk `0` on `[]`, which the
code never reaches: the empty case returns before `min` is called). -/
def listMin : List ℚ → ℚ
  | [] => 0
  | x :: xs => xs.foldl min x

/-- Python builtin `max` over a nonempty list (junk `0` on `[]`). -/
def listMax : List ℚ → ℚ
  | [] => 0
  | x :: xs => xs.foldl max x

/-- Models `statistics.mean` / `numpy.mean`: the arithmetic mean `(Σ x_i) / n`,
in exact rational arithmetic. -/
def meanQ (xs : List ℚ) : ℚ := xs.sum / xs.length

/-- Insertion of one element into a sorted list, for the sort both median
implementations perform. -/
def insertSorted (x : ℚ) : List ℚ → List ℚ
  | [] => [x]
  | y :: ys => if x ≤ y then x :: y :: ys else y :: insertSorted x ys

/-- Insertion sort, modelling the sort inside `statistics.median` /
`numpy.median`. -/
def sortQ : List ℚ → List ℚ
  | [] => []
  | x :: xs => insertSorted x (sortQ xs)

/-- Models `statistics.median` / `numpy.median`: the middle element of the sorted
sequence for odd length, the average of the two middle elements for even
length. -/
def medianQ (xs : List ℚ) : ℚ :=
  let s := sortQ xs
  let n := s.length
  if n % 2 = 1 then s.getD (n / 2) 0
  else (s.getD (n / 2 - 1) 0 + s.getD (n / 2) 0) / 2

/-- Sum of squared deviations from the mean, `Σ (x_i - mean)²`. -/
def ssdQ (xs : List ℚ) : ℚ := (xs.map (fun x => (x - meanQ xs) ^ 2)).sum

/-- Models `statistics.variance`: the *sample* variance `Σ (x_i - mean)² / (n-1)`
(the python3 implementation).  Only reached with `n ≥ 2`. -/
def sampleVarQ (xs : List ℚ) : ℚ := ssdQ xs / ((xs.length : ℚ) - 1)

/-- Models `numpy.var`: the *population* variance `Σ (x_i - mean)² / n`
(the python2 implementation). -/
def popVarQ (xs : List ℚ) : ℚ := ssdQ xs / (xs.length : ℚ)

/-- View an integer duration list as exact rationals (the float conversion
the Python statistics take, modelled exactly). -/
def intsToQ (values : List Int) : List ℚ :=
  values.map (fun v => (Int.cast v : ℚ))

/-- Transcribes `Profiler.__get_stats_from_array`, python3 version (lines 105-120):
empty dictionary on `[]`, `{'value': float(v)}` on `[v]`, otherwise `len`,
`min`, `max`, `statistics.mean`, `statistics.median`, `statistics.stdev`,
`statistics.variance` — sample statistics. -/
def getStatsP3 (values : List Int) : StatsSummary :=
  if values.length = 0 then .empty
  else if values.length = 1 then .single ((values.getD 0 0 : Int) : ℚ)
  else
    .aggregate values.length (listMin (intsToQ values)) (listMax (intsToQ values))
      (meanQ (intsToQ values)) (medianQ (intsToQ values)) (sampleVarQ (intsToQ values))

/-- Transcribes `Profiler.__get_stats_from_array`, python2 version (lines 104-119):
identical shape but `numpy.mean`, `numpy.median`, `numpy.std`, `numpy.var`
— population statistics. -/
def getStatsP2 (values : List Int) : StatsSummary :=
  if values.length = 0 then .empty
  else if values.length = 1 then .single ((values.getD 0 0 : Int) : ℚ)
  else
    .aggregate values.length (listMin (intsToQ values)) (listMax (intsToQ values))
      (meanQ (intsToQ values)) (medianQ (intsToQ values)) (popVarQ (intsToQ values))

/-- Models `statistics.stdev` (the python3 `stdev` entry): the square root of the
sample variance. -/
noncomputable def statisticsStdev (xs : List ℚ) : ℝ :=
  Real.sqrt ((sampleVarQ xs : ℚ) : ℝ)

/-- Models `numpy.std` (the python2 `stdev` entry): the square root of the
population variance. -/
noncomputable def numpyStd (xs : List ℚ) : ℝ :=
  Real.sqrt ((popVarQ xs : ℚ) : ℝ)

/-- The duration the stats path reads off a record
(`map(lambda e: e.duration, events)`).  The `Option` is read with default
`0`; on reachable states every finished record has the field set, so the
default is never observed (see the invariant theorems). -/
def Event.durationD (e : Event) : Int := e.duration.getD 0

/-- Transcribes `Profiler.finished_events_stats` with the python3 reducer
(lines 81-97): for every name in the finished dictionary, the stats of that
name's durations. -/
def Profiler.finishedEventsStatsP3 (p : Profiler) :
    List (String × StatsSummary) :=
  p.finished.map (fun nv => (nv.1, getStatsP3 (nv.2.map Event.durationD)))

/-- Transcribes `Profiler.finished_events_stats` with the python2 reducer. -/
def Profiler.finishedEventsStatsP2 (p : Profiler) :
    List (String × StatsSummary) :=
  p.finished.map (fun nv => (nv.1, getStatsP2 (nv.2.map Event.durationD)))

/-- One client call to the tracker.  `finished_events` and
`finished_events_stats` are the read-only operations; they leave the state
untouched. -/
inductive Op where
  | start : String → Int → Op
  | stop : Nat → Int → Op
  | readFinished : Op
  | readStats : Op
deriving DecidableEq, Repr

/-- The state after one call. -/
def applyOp (p : Profiler) : Op → Profiler
  | .start n t => (p.start n t).2
  | .stop uid t => (p.stop uid t).2
  | .readFinished => p
  | .readStats => p

/-- The state after a sequence of calls. -/
def runOps (p : Profiler) (ops : List Op) : Profiler :=
  ops.foldl applyOp p

/-- A state is reachable when some call sequence leads the fresh tracker
to it. -/
def Reachable (p : Profiler) : Prop :=
  ∃ ops : List Op, runOps Profiler.init ops = p

/-- The tokens returned by the `start` calls of a call sequence, in call
order. -/
def startTokens (p : Profiler) : List Op → List Nat
  | [] => []
  | op :: ops =>
    match op with
    | .start n t => (p.start n t).1 :: startTokens (applyOp p (.start n t)) ops
    | _ => startTokens (applyOp p op) ops

/-- The summary the specification claims for a name with `N ≥ 2` finished
durations: `count = N`, `min`, `max`, `mean = (Σd)/N`, `median` per the
standard definition, and *population* variance `Σ(d − mean)²/N` (dividing
by `N`, not `N − 1`). -/
def specClaimedSummary (values : List Int) : StatsSummary :=
  .aggregate values.length (listMin (intsToQ values)) (listMax (intsToQ values))
    (meanQ (intsToQ values)) (medianQ (intsToQ values)) (popVarQ (intsToQ values))

/-- Looking a key up after mapping a function over the values of an
association list. -/
theorem alookup_map_snd {α β γ : Type} [DecidableEq α]
    (l : List (α × β)) (g : β → γ) (a : α) :
    alookup (l.map (fun kv => (kv.1, g kv.2))) a = (alookup l a).map g := by
  induction l with
  | nil => rfl
  | cons kv rest ih =>
    by_cases h : a = kv.1 <;> simp [alookup, h, ih]


/-- With at least two values the python3 reducer takes the aggregate
branch. -/
theorem getStatsP3_of_two (values : List Int) (h : 2 ≤ values.length) :
    getStatsP3 values = .aggregate values.length (listMin (intsToQ values))
      (listMax (intsToQ values)) (meanQ (intsToQ values))
      (medianQ (intsToQ values)) (sampleVarQ (intsToQ values)) := by
  unfold getStatsP3
  rw [if_neg (by omega), if_neg (by omega)]

/-- With at least two values the python2 reducer takes the aggregate
branch. -/
theorem getStatsP2_of_two (values : List Int) (h : 2 ≤ values.length) :
    getStatsP2 values = .aggregate values.length (listMin (intsToQ values))
      (listMax (intsToQ values)) (meanQ (intsToQ values))
      (medianQ (intsToQ values)) (popVarQ (intsToQ values)) := by
  unfold getStatsP2
  rw [if_neg (by omega), if_neg (by omega)]

/-- C1, counterexample.  Two finished events named "a" with durations 0 and
2 microseconds: the python3 `stats()` reports `variance = 2` (sample
variance, `statistics.variance`), not the population variance 1 the claim
demands. -/
theorem stats_popvariance_cex :
    alookup (Profiler.finishedEventsStatsP3 (runOps Profiler.init
        [Op.start "a" 0, Op.stop 0 0, Op.start "a" 2, Op.stop 1 4])) "a" ≠
      some (specClaimedSummary [0, 2]) := by
  norm_num [runOps, applyOp, Profiler.start, Profiler.stop, Profiler.init,
    List.foldl, alookup, ainsert, aremove, saveFinishedEvent,
    Profiler.finishedEventsStatsP3, Event.durationD, getStatsP3, intsToQ,
    specClaimedSummary, listMin, listMax, meanQ, medianQ, sortQ,
    insertSorted, ssdQ, sampleVarQ, popVarQ]

/-- C1 (amended).  For a name with N ≥ 2 finished durations, `stats()`
returns `count = N`, `min`, `max`, `mean = (Σd)/N` and the standard median
as claimed, but the variance differs between the two implementations: the
python3 (statistics-based) reducer returns the *sample* variance
`Σ(d − mean)²/(N−1)` with its square root as `stdev`, while the python2
(numpy-based) reducer returns the population variance `Σ(d − mean)²/N`
with its square root as `stdev`. -/
theorem stats_aggregate_fields (p : Profiler) (n : String) (evs : List Event)
    (h : alookup p.finished n = some evs) (h2 : 2 ≤ evs.length) :
    alookup (Profiler.finishedEventsStatsP3 p) n =
      some (.aggregate evs.length
        (listMin (intsToQ (evs.map Event.durationD)))
        (listMax (intsToQ (evs.map Event.durationD)))
        (meanQ (intsToQ (evs.map Event.durationD)))
        (medianQ (intsToQ (evs.map Event.durationD)))
        (sampleVarQ (intsToQ (evs.map Event.durationD)))) ∧
    alookup (Profiler.finishedEventsStatsP2 p) n =
      some (.aggregate evs.length
        (listMin (intsToQ (evs.map Event.durationD)))
        (listMax (intsToQ (evs.map Event.durationD)))
        (meanQ (intsToQ (evs.map Event.durationD)))
        (medianQ (intsToQ (evs.map Event.durationD)))
        (popVarQ (intsToQ (evs.map Event.durationD)))) ∧
    statisticsStdev (intsToQ (evs.map Event.durationD)) =
      Real.sqrt ((sampleVarQ (intsToQ (evs.map Event.durationD)) : ℚ) : ℝ) ∧
    numpyStd (intsToQ (evs.map Event.durationD)) =
      Real.sqrt ((popVarQ (intsToQ (evs.map Event.durationD)) : ℚ) : ℝ) := by
  have hlen : 2 ≤ (evs.map Event.durationD).length := by
    simpa using h2
  refine ⟨?_, ?_, rfl, rfl⟩
  · unfold Profiler.finishedEventsStatsP3
    rw [alookup_map_snd p.finished
      (fun evs => getStatsP3 (evs.map Event.durationD)) n, h, Option.map_some']
    rw [getStatsP3_of_two _ hlen]
    simp
  · unfold Profiler.finishedEventsStatsP2
    rw [alookup_map_snd p.finished
      (fun evs => getStatsP2 (evs.map Event.durationD)) n, h, Option.map_some']
    rw [getStatsP2_of_two _ hlen]
    simp

/-- C1 (amended), witness: the tracker that finished "a" twice with
durations 0 and 2. -/
theorem stats_aggregate_fields_witness :
    alookup (runOps Profiler.init
        [Op.start "a" 0, Op.stop 0 0, Op.start "a" 2, Op.stop 1 4]).finished
        "a" =
      some [{ name := "a", start_time := 0, end_time := some 0,
              duration := some 0 },
            { name := "a", start_time := 2, end_time := some 4,
              duration := some 2 }] ∧
    2 ≤ ([{ name := "a", start_time := 0, end_time := some 0,
            duration := some 0 },
          { name := "a", start_time := 2, end_time := some 4,
            duration := some 2 }] : List Event).length ∧
    alookup (Profiler.finishedEventsStatsP3 (runOps Profiler.init
        [Op.start "a" 0, Op.stop 0 0, Op.start "a" 2, Op.stop 1 4])) "a" =
      some (.aggregate 2
        (listMin (intsToQ [0, 2])) (listMax (intsToQ [0, 2]))
        (meanQ (intsToQ [0, 2])) (medianQ (intsToQ [0, 2]))
        (sampleVarQ (intsToQ [0, 2]))) := by
  have h : alookup (runOps Profiler.init
      [Op.start "a" 0, Op.stop 0 0, Op.start "a" 2, Op.stop 1 4]).finished
      "a" =
      some [{ name := "a", start_time := 0, end_time := some 0,
              duration := some 0 },
            { name := "a", start_time := 2, end_time := some 4,
              duration := some 2 }] := by
    rfl
  exact ⟨h, by norm_num,
    (stats_aggregate_fields _ _ _ h (by norm_num)).1⟩

/-- C4, counterexample.  On durations 0 and 2 the python2 reducer reports
variance 1 (population) while the python3 reducer reports variance 2
(sample): the two implementations are not equivalent. -/
theorem reducers_differ_cex : getStatsP2 [0, 2] ≠ getStatsP3 [0, 2] := by
  norm_num [getStatsP2, getStatsP3, intsToQ, listMin, listMax, meanQ,
    medianQ, sortQ, insertSorted, ssdQ, sampleVarQ, popVarQ]

/-- C4 (amended).  On lists of length ≥ 2 the two reducers agree on `len`,
`min`, `max`, `mean` and `median`, and differ exactly in the variance
(hence stdev) slot: python2 stores the population variance, which equals
`(N−1)/N` times the sample variance python3 stores.  (On lists of length
≤ 1 the two reducers coincide definitionally.) -/
theorem reducers_agree_except_variance (values : List Int)
    (h : 2 ≤ values.length) :
    getStatsP2 values = .aggregate values.length (listMin (intsToQ values))
      (listMax (intsToQ values)) (meanQ (intsToQ values))
      (medianQ (intsToQ values)) (popVarQ (intsToQ values)) ∧
    getStatsP3 values = .aggregate values.length (listMin (intsToQ values))
      (listMax (intsToQ values)) (meanQ (intsToQ values))
      (medianQ (intsToQ values)) (sampleVarQ (intsToQ values)) ∧
    popVarQ (intsToQ values) =
      ((values.length : ℚ) - 1) / (values.length : ℚ) *
        sampleVarQ (intsToQ values) := by
  refine ⟨getStatsP2_of_two values h, getStatsP3_of_two values h, ?_⟩
  have hn : ((values.length : ℚ)) ≠ 0 := by
    have : (2 : ℚ) ≤ (values.length : ℚ) := by exact_mod_cast h
    linarith
  have hn1 : ((values.length : ℚ)) - 1 ≠ 0 := by
    have : (2 : ℚ) ≤ (values.length : ℚ) := by exact_mod_cast h
    linarith
  unfold popVarQ sampleVarQ
  have hl0 : (intsToQ values).length = values.length := by
    simp only [intsToQ]
    exact List.length_map values (fun v => (Int.cast v : ℚ))
  have hl : ((intsToQ values).length : ℚ) = (values.length : ℚ) := by
    exact_mod_cast congrArg (Nat.cast : ℕ → ℚ) hl0
  rw [hl]
  field_simp
  ring

/-- C4 (amended), witness at durations 0 and 2. -/
theorem reducers_agree_except_variance_witness :
    2 ≤ ([0, 2] : List Int).length ∧
    getStatsP2 [0, 2] = .aggregate 2 (listMin (intsToQ [0, 2]))
      (listMax (intsToQ [0, 2])) (meanQ (intsToQ [0, 2]))
      (medianQ (intsToQ [0, 2])) (popVarQ (intsToQ [0, 2])) :=
  ⟨by norm_num, (reducers_agree_except_variance [0, 2] (by norm_num)).1⟩

/-- C7.  A name with exactly one finished event gets the summary
`{'value': float(duration)}` from both implementations. -/
theorem single_event_stats (p : Profiler) (n : String) (ev : Event)
    (h : alookup p.finished n = some [ev]) :
    alookup (Profiler.finishedEventsStatsP3 p) n =
      some (.single ((ev.durationD : Int) : ℚ)) ∧
    alookup (Profiler.finishedEventsStatsP2 p) n =
      some (.single ((ev.durationD : Int) : ℚ)) := by
  constructor
  · unfold Profiler.finishedEventsStatsP3
    rw [alookup_map_snd p.finished
      (fun evs => getStatsP3 (evs.map Event.durationD)) n, h,
      Option.map_some']
    simp [getStatsP3]
  · unfold Profiler.finishedEventsStatsP2
    rw [alookup_map_snd p.finished
      (fun evs => getStatsP2 (evs.map Event.durationD)) n, h,
      Option.map_some']
    simp [getStatsP2]

/-- C7, witness: one finished "a" event of 5 microseconds. -/
theorem single_event_stats_witness :
    alookup ((runOps Profiler.init [Op.start "a" 0, Op.stop 0 5]).finished)
      "a" =
      some [{ name := "a", start_time := 0, end_time := some 5,
              duration := some 5 }] ∧
    alookup (Profiler.finishedEventsStatsP3
        (runOps Profiler.init [Op.start "a" 0, Op.stop 0 5])) "a" =
      some (.single ((5 : Int) : ℚ)) := by
  have h : alookup
      ((runOps Profiler.init [Op.start "a" 0, Op.stop 0 5]).finished) "a" =
      some [{ name := "a", start_time := 0, end_time := some 5,
              duration := some 5 }] := by rfl
  exact ⟨h, (single_event_stats _ _ _ h).1⟩

/-- Looking up a key just removed yields nothing. -/
theorem alookup_aremove_self {α β : Type} [DecidableEq α]
    (l : List (α × β)) (a : α) : alookup (aremove l a) a = none := by
  induction l with
  | nil => rfl
  | cons kv rest ih =>
    obtain ⟨k, v⟩ := kv
    by_cases h : k = a
    · simpa [aremove, h] using ih
    · have h' : ¬(a = k) := fun hh => h hh.symm
      simp [aremove, h, alookup, h', ih]

/-- Removing one key leaves every other key's binding unchanged. -/
theorem alookup_aremove_ne {α β : Type} [DecidableEq α]
    (l : List (α × β)) (a a' : α) (h : a' ≠ a) :
    alookup (aremove l a) a' = alookup l a' := by
  induction l with
  | nil => rfl
  | cons kv rest ih =>
    obtain ⟨k, v⟩ := kv
    by_cases hk : k = a
    · subst hk
      simp [aremove, alookup, h, ih]
    · by_cases hk' : a' = k
      · simp [aremove, hk, alookup, hk']
      · simp [aremove, hk, alookup, hk', ih]

/-- Saving a finished event appends it at the end of its name's sequence
(creating the sequence when the name is new). -/
theorem alookup_save_self (l : List (String × List Event)) (ev : Event) :
    alookup (saveFinishedEvent l ev) ev.name =
      some ((alookup l ev.name).getD [] ++ [ev]) := by
  induction l with
  | nil => simp [saveFinishedEvent, alookup]
  | cons nv rest ih =>
    obtain ⟨n, evs⟩ := nv
    by_cases h : n = ev.name
    · subst h
      simp [saveFinishedEvent, alookup]
    · have h' : ¬(ev.name = n) := fun hh => h hh.symm
      simp [saveFinishedEvent, h, alookup, h', ih]

/-- Saving a finished event leaves every other name's sequence unchanged. -/
theorem alookup_save_ne (l : List (String × List Event)) (ev : Event)
    (n : String) (h : n ≠ ev.name) :
    alookup (saveFinishedEvent l ev) n = alookup l n := by
  induction l with
  | nil => simp [saveFinishedEvent, alookup, h]
  | cons nv rest ih =>
    obtain ⟨m, evs⟩ := nv
    by_cases hm : m = ev.name
    · subst hm
      simp [saveFinishedEvent, alookup, h]
    · by_cases hn : n = m
      · simp [saveFinishedEvent, hm, alookup, hn]
      · simp [saveFinishedEvent, hm, alookup, hn, ih]

/-- C3.  `stop` on a token not in `running` — never issued or already
stopped — returns the NotFound signal (`None`) and leaves the whole state
unchanged; in particular a second `stop` on the same token returns NotFound
and leaves the state after the first `stop` (including `finished`)
untouched. -/
theorem stop_unknown_token (p : Profiler) (uid : Nat) (t t' : Int) :
    (alookup p.running uid = none → p.stop uid t = (none, p)) ∧
    (∀ ev, alookup p.running uid = some ev →
      ((p.stop uid t).2).stop uid t' = (none, (p.stop uid t).2)) := by
  constructor
  · intro h
    simp [Profiler.stop, h]
  · intro ev h
    generalize hq : (p.stop uid t).2 = q
    have h2 : alookup q.running uid = none := by
      rw [← hq]
      simp only [Profiler.stop, h]
      exact alookup_aremove_self _ _
    simp [Profiler.stop, h2]

/-- C3, witness: stopping the never-issued token 7 on a tracker with one
running event returns NotFound and changes nothing; stopping token 0 twice
makes the second call return NotFound without touching the state. -/
theorem stop_unknown_token_witness :
    ((runOps Profiler.init [Op.start "a" 0]).stop 7 1 =
      (none, runOps Profiler.init [Op.start "a" 0])) ∧
    ((((runOps Profiler.init [Op.start "a" 0]).stop 0 1).2).stop 0 2 =
      (none, ((runOps Profiler.init [Op.start "a" 0]).stop 0 1).2)) :=
  ⟨(stop_unknown_token (runOps Profiler.init [Op.start "a" 0]) 7 1 2).1
      (by rfl),
   (stop_unknown_token (runOps Profiler.init [Op.start "a" 0]) 0 1 2).2
      { name := "a", start_time := 0 } (by rfl)⟩

/-- C2.  A successful `stop` stores as duration only the normalised
sub-second microsecond component of `end_time - start_time`
(`timedelta.microseconds`, i.e. the delta modulo 10^6 microseconds); the
elapsed whole seconds and days are discarded, so any event whose true
elapsed time is at least one second (10^6 microseconds) is undercounted. -/
theorem stop_duration_subsecond (p : Profiler) (uid : Nat) (now : Int)
    (ev : Event) (h : alookup p.running uid = some ev) :
    (p.stop uid now).1 =
      some { ev with end_time := some now,
                     duration := some ((now - ev.start_time) % 1000000) } ∧
    (1000000 ≤ now - ev.start_time →
      (now - ev.start_time) % 1000000 < now - ev.start_time) := by
  constructor
  · simp [Profiler.stop, h]
  · intro hge
    calc (now - ev.start_time) % 1000000 < 1000000 :=
          Int.emod_lt_of_pos _ (by norm_num)
      _ ≤ now - ev.start_time := hge

/-- C2, witness: an event started at time 0 and stopped at 2500000 µs
(2.5 s) gets duration 500000, undercounting the true elapsed time. -/
theorem stop_duration_subsecond_witness :
    ((runOps Profiler.init [Op.start "a" 0]).stop 0 2500000).1 =
      some { name := "a", start_time := 0, end_time := some 2500000,
             duration := some ((2500000 - 0 : Int) % 1000000) } ∧
    ((2500000 : Int) - 0) % 1000000 < 2500000 - 0 := by
  have h := stop_duration_subsecond (runOps Profiler.init [Op.start "a" 0])
    0 2500000 { name := "a", start_time := 0 } (by rfl)
  exact ⟨h.1, h.2 (by norm_num)⟩

/-- C5.  A successful `stop` removes exactly the stopped token from
`running`, leaves every other running entry unchanged, returns the
finalized record, appends exactly that record at the end of its name's
finished sequence (creating it if new), and leaves every other name's
finished sequence unchanged — so each finished sequence is ordered by stop
time. -/
theorem stop_success_frame (p : Profiler) (uid : Nat) (now : Int)
    (ev : Event) (h : alookup p.running uid = some ev) :
    (p.stop uid now).1 =
      some { ev with end_time := some now,
                     duration := some ((now - ev.start_time) % 1000000) } ∧
    alookup (p.stop uid now).2.running uid = none ∧
    (∀ uid', uid' ≠ uid →
      alookup (p.stop uid now).2.running uid' = alookup p.running uid') ∧
    (alookup (p.stop uid now).2.finished ev.name).getD [] =
      (alookup p.finished ev.name).getD [] ++
        [{ ev with end_time := some now,
                   duration := some ((now - ev.start_time) % 1000000) }] ∧
    (∀ n, n ≠ ev.name →
      alookup (p.stop uid now).2.finished n = alookup p.finished n) := by
  refine ⟨by simp [Profiler.stop, h], ?_, ?_, ?_, ?_⟩
  · simp only [Profiler.stop, h]
    exact alookup_aremove_self _ _
  · intro uid' hne
    simp only [Profiler.stop, h]
    exact alookup_aremove_ne _ _ _ hne
  · simp only [Profiler.stop, h]
    have hs := alookup_save_self p.finished
      { ev with end_time := some now,
                duration := some ((now - ev.start_time) % 1000000) }
    simp only [hs]
    rfl
  · intro n hne
    simp only [Profiler.stop, h]
    exact alookup_save_ne _ _ _ hne

/-- C5, witness: stopping the single running "a" event removes its token,
leaves the unrelated token 5 and the unrelated name "b" untouched, and
appends the finalized record to the "a" sequence. -/
theorem stop_success_frame_witness :
    ((runOps Profiler.init [Op.start "a" 0]).stop 0 5).1 =
      some { name := "a", start_time := 0, end_time := some 5,
             duration := some (((5 : Int) - 0) % 1000000) } ∧
    alookup ((runOps Profiler.init [Op.start "a" 0]).stop 0 5).2.running 0 =
      none ∧
    alookup ((runOps Profiler.init [Op.start "a" 0]).stop 0 5).2.running 5 =
      alookup (runOps Profiler.init [Op.start "a" 0]).running 5 ∧
    (alookup ((runOps Profiler.init [Op.start "a" 0]).stop 0 5).2.finished
        "a").getD [] =
      (alookup (runOps Profiler.init [Op.start "a" 0]).finished "a").getD []
        ++ [{ name := "a", start_time := 0, end_time := some 5,
              duration := some (((5 : Int) - 0) % 1000000) }] ∧
    alookup ((runOps Profiler.init [Op.start "a" 0]).stop 0 5).2.finished
        "b" =
      alookup (runOps Profiler.init [Op.start "a" 0]).finished "b" := by
  have h := stop_success_frame (runOps Profiler.init [Op.start "a" 0]) 0 5
    { name := "a", start_time := 0 } (by rfl)
  exact ⟨h.1, h.2.1, h.2.2.1 5 (by decide), h.2.2.2.1,
    h.2.2.2.2 "b" (by decide)⟩

/-- The token counter never decreases across any call. -/
theorem nextId_mono_applyOp (p : Profiler) (op : Op) :
    p.nextId ≤ (applyOp p op).nextId := by
  cases op with
  | start n t => simp [applyOp, Profiler.start]
  | stop uid t =>
    cases h : alookup p.running uid with
    | none => simp [applyOp, Profiler.stop, h]
    | some ev => simp [applyOp, Profiler.stop, h]
  | readFinished => exact le_refl _
  | readStats => exact le_refl _

/-- Every token a call sequence returns is at least the current counter. -/
theorem startTokens_lower_bound (ops : List Op) :
    ∀ p : Profiler, ∀ tok ∈ startTokens p ops, p.nextId ≤ tok := by
  induction ops with
  | nil => intro p tok htok; simp [startTokens] at htok
  | cons op ops ih =>
    intro p tok htok
    cases op with
    | start n t =>
      simp only [startTokens, List.mem_cons] at htok
      rcases htok with h | h
      · simp [Profiler.start, h]
      · have := ih (applyOp p (.start n t)) tok h
        have h2 : p.nextId ≤ (applyOp p (.start n t)).nextId :=
          nextId_mono_applyOp p _
        omega
    | stop uid t =>
      simp only [startTokens] at htok
      have := ih (applyOp p (.stop uid t)) tok htok
      have h2 : p.nextId ≤ (applyOp p (.stop uid t)).nextId :=
        nextId_mono_applyOp p _
      omega
    | readFinished =>
      simp only [startTokens] at htok
      exact ih p tok htok
    | readStats =>
      simp only [startTokens] at htok
      exact ih p tok htok

/-- Tokens are returned in strictly increasing order. -/
theorem startTokens_chain (ops : List Op) :
    ∀ p : Profiler, (startTokens p ops).Pairwise (· < ·) := by
  induction ops with
  | nil => intro p; simp [startTokens]
  | cons op ops ih =>
    intro p
    cases op with
    | start n t =>
      simp only [startTokens]
      refine List.Pairwise.cons ?_ (ih _)
      intro tok htok
      have hlb := startTokens_lower_bound ops (applyOp p (.start n t)) tok htok
      have hid : (applyOp p (.start n t)).nextId = p.nextId + 1 := by
        simp [applyOp, Profiler.start]
      have : (p.start n t).1 = p.nextId := rfl
      omega
    | stop uid t => simpa [startTokens] using ih (applyOp p (.stop uid t))
    | readFinished => simpa [startTokens] using ih p
    | readStats => simpa [startTokens] using ih p

/-- C6.  Over any call sequence on one tracker, the tokens returned by
`start` are pairwise distinct: a token is never reused or recycled. -/
theorem start_tokens_distinct (ops : List Op) :
    (startTokens Profiler.init ops).Nodup :=
  (startTokens_chain ops Profiler.init).imp ne_of_lt

/-- Membership after a dictionary insert: the new binding or an old one. -/
theorem mem_ainsert {α β : Type} [DecidableEq α]
    (l : List (α × β)) (a : α) (b : β) (kv : α × β)
    (h : kv ∈ ainsert l a b) : kv = (a, b) ∨ kv ∈ l := by
  induction l with
  | nil => simpa [ainsert] using h
  | cons kv' rest ih =>
    obtain ⟨k, v⟩ := kv'
    by_cases hk : k = a
    · simp only [ainsert, if_pos hk, List.mem_cons] at h
      rcases h with h | h
      · exact Or.inl h
      · exact Or.inr (List.mem_cons_of_mem _ h)
    · simp only [ainsert, if_neg hk, List.mem_cons] at h
      rcases h with h | h
      · exact Or.inr (by simp [h])
      · rcases ih h with h2 | h2
        · exact Or.inl h2
        · exact Or.inr (List.mem_cons_of_mem _ h2)

/-- Membership survives a dictionary removal. -/
theorem mem_aremove {α β : Type} [DecidableEq α]
    (l : List (α × β)) (a : α) (kv : α × β)
    (h : kv ∈ aremove l a) : kv ∈ l := by
  induction l with
  | nil => simp [aremove] at h
  | cons kv' rest ih =>
    obtain ⟨k, v⟩ := kv'
    by_cases hk : k = a
    · simp only [aremove, if_pos hk] at h
      exact List.mem_cons_of_mem _ (ih h)
    · simp only [aremove, if_neg hk, List.mem_cons] at h
      rcases h with h | h
      · simp [h]
      · exact List.mem_cons_of_mem _ (ih h)

/-- Every record found in the finished dictionary after a save is the saved
record or was already there. -/
theorem mem_saveFinishedEvent (l : List (String × List Event)) (ev : Event)
    (nv : String × List Event) (h : nv ∈ saveFinishedEvent l ev) :
    ∀ e ∈ nv.2, e = ev ∨ ∃ nv' ∈ l, e ∈ nv'.2 := by
  induction l with
  | nil =>
    intro e he
    simp only [saveFinishedEvent, List.mem_singleton] at h
    subst h
    simp only [List.mem_singleton] at he
    exact Or.inl he
  | cons nv' rest ih =>
    obtain ⟨n, evs⟩ := nv'
    intro e he
    by_cases hn : n = ev.name
    · simp only [saveFinishedEvent, if_pos hn, List.mem_cons] at h
      rcases h with h | h
      · subst h
        simp only [List.mem_append, List.mem_singleton] at he
        rcases he with he | he
        · exact Or.inr ⟨(n, evs), by simp, he⟩
        · exact Or.inl he
      · exact Or.inr ⟨nv, List.mem_cons_of_mem _ h, he⟩
    · simp only [saveFinishedEvent, if_neg hn, List.mem_cons] at h
      rcases h with h | h
      · subst h
        exact Or.inr ⟨(n, evs), by simp, he⟩
      · rcases ih h e he with h2 | h2
        · exact Or.inl h2
        · obtain ⟨nv2, hnv2, he2⟩ := h2
          exact Or.inr ⟨nv2, List.mem_cons_of_mem _ hnv2, he2⟩

/-- The lifecycle invariant: running records have neither `end_time` nor
`duration`; finished records have both, with the duration in the range
`[0, 999999]` the `timedelta.microseconds` normalisation guarantees. -/
def EventsInv (p : Profiler) : Prop :=
  (∀ kv ∈ p.running, kv.2.end_time = none ∧ kv.2.duration = none) ∧
  (∀ nv ∈ p.finished, ∀ e ∈ nv.2,
    (∃ t, e.end_time = some t) ∧
    ∃ d, e.duration = some d ∧ 0 ≤ d ∧ d ≤ 999999)

/-- The lifecycle invariant holds initially. -/
theorem eventsInv_init : EventsInv Profiler.init := by
  constructor <;> intro nv hnv <;> simp [Profiler.init] at hnv

/-- The lifecycle invariant is preserved by every call. -/
theorem eventsInv_applyOp (p : Profiler) (op : Op) (h : EventsInv p) :
    EventsInv (applyOp p op) := by
  obtain ⟨hrun, hfin⟩ := h
  cases op with
  | start n t =>
    refine ⟨?_, ?_⟩
    · intro kv hkv
      simp only [applyOp, Profiler.start] at hkv
      rcases mem_ainsert _ _ _ _ hkv with h | h
      · subst h; exact ⟨rfl, rfl⟩
      · exact hrun kv h
    · intro nv hnv
      simp only [applyOp, Profiler.start] at hnv
      exact hfin nv hnv
  | stop uid t =>
    cases hl : alookup p.running uid with
    | none =>
      simp only [applyOp, Profiler.stop, hl]
      exact ⟨hrun, hfin⟩
    | some ev =>
      simp only [applyOp, Profiler.stop, hl]
      refine ⟨?_, ?_⟩
      · intro kv hkv
        exact hrun kv (mem_aremove _ _ _ hkv)
      · intro nv hnv e he
        rcases mem_saveFinishedEvent _ _ _ hnv e he with h | h
        · subst h
          refine ⟨⟨t, rfl⟩, (t - ev.start_time) % 1000000, rfl, ?_, ?_⟩
          · exact Int.emod_nonneg _ (by norm_num)
          · have := Int.emod_lt_of_pos (t - ev.start_time)
              (show (0 : Int) < 1000000 by norm_num)
            omega
        · obtain ⟨nv2, hnv2, he2⟩ := h
          exact hfin nv2 hnv2 e he2
  | readFinished => exact ⟨hrun, hfin⟩
  | readStats => exact ⟨hrun, hfin⟩

/-- The lifecycle invariant holds after any call sequence. -/
theorem eventsInv_runOps (ops : List Op) :
    ∀ p : Profiler, EventsInv p → EventsInv (runOps p ops) := by
  induction ops with
  | nil => intro p h; exact h
  | cons op ops ih =>
    intro p h
    exact ih (applyOp p op) (eventsInv_applyOp p op h)

/-- The lifecycle invariant holds in every reachable state. -/
theorem eventsInv_reachable (p : Profiler) (h : Reachable p) : EventsInv p := by
  obtain ⟨ops, hops⟩ := h
  rw [← hops]
  exact eventsInv_runOps ops Profiler.init eventsInv_init

/-- C8.  In every reachable state the lifecycle invariant holds: a record's
`duration` is set exactly when its `end_time` is set — both absent on every
running record, both present on every finished record. -/
theorem duration_iff_end_time (p : Profiler) (h : Reachable p) :
    (∀ kv ∈ p.running,
      kv.2.end_time = none ∧ kv.2.duration = none ∧
      (kv.2.duration.isSome ↔ kv.2.end_time.isSome)) ∧
    (∀ nv ∈ p.finished, ∀ e ∈ nv.2,
      e.end_time.isSome ∧ e.duration.isSome ∧
      (e.duration.isSome ↔ e.end_time.isSome)) := by
  obtain ⟨hrun, hfin⟩ := eventsInv_reachable p h
  constructor
  · intro kv hkv
    obtain ⟨h1, h2⟩ := hrun kv hkv
    exact ⟨h1, h2, by rw [h1, h2]⟩
  · intro nv hnv e he
    obtain ⟨⟨t, ht⟩, d, hd, _, _⟩ := hfin nv hnv e he
    refine ⟨by rw [ht]; rfl, by rw [hd]; rfl, by rw [ht, hd]; rfl⟩

/-- C8, witness: in the state with one running "b" event and one finished
"a" event, the running record has neither field and the finished record has
both. -/
theorem duration_iff_end_time_witness :
    (({ name := "b", start_time := 4 } : Event).end_time = none ∧
     ({ name := "b", start_time := 4 } : Event).duration = none ∧
     (({ name := "b", start_time := 4 } : Event).duration.isSome ↔
       ({ name := "b", start_time := 4 } : Event).end_time.isSome)) ∧
    ((Event.mk "a" 0 (some 3) (some 3)).end_time.isSome ∧
     (Event.mk "a" 0 (some 3) (some 3)).duration.isSome ∧
     ((Event.mk "a" 0 (some 3) (some 3)).duration.isSome ↔
       (Event.mk "a" 0 (some 3) (some 3)).end_time.isSome)) :=
  ⟨(duration_iff_end_time
      (runOps Profiler.init [Op.start "a" 0, Op.stop 0 3, Op.start "b" 4])
      ⟨[Op.start "a" 0, Op.stop 0 3, Op.start "b" 4], rfl⟩).1
      (1, { name := "b", start_time := 4 }) (by decide),
   (duration_iff_end_time
      (runOps Profiler.init [Op.start "a" 0, Op.stop 0 3, Op.start "b" 4])
      ⟨[Op.start "a" 0, Op.stop 0 3, Op.start "b" 4], rfl⟩).2
      ("a", [Event.mk "a" 0 (some 3) (some 3)]) (by decide)
      (Event.mk "a" 0 (some 3) (some 3)) (by decide)⟩

/-- C10.  In every reachable state every finished record's duration is an
integer in `[0, 999999]`: the stored value is the normalised microseconds
component of the time delta, whatever the delta's sign or magnitude. -/
theorem finished_duration_range (p : Profiler) (h : Reachable p) :
    ∀ nv ∈ p.finished, ∀ e ∈ nv.2,
      ∃ d, e.duration = some d ∧ 0 ≤ d ∧ d ≤ 999999 := by
  intro nv hnv e he
  obtain ⟨_, hfin⟩ := eventsInv_reachable p h
  obtain ⟨_, d, hd, h0, h1⟩ := hfin nv hnv e he
  exact ⟨d, hd, h0, h1⟩

/-- C10, witness: the finished record of an event whose clock ran
backwards (started at 10, stopped at 3) still stores a duration inside
`[0, 999999]`, namely 999993. -/
theorem finished_duration_range_witness :
    ∃ d, (Event.mk "b" 10 (some 3) (some 999993)).duration = some d ∧
      0 ≤ d ∧ d ≤ 999999 :=
  finished_duration_range
    (runOps Profiler.init
      [Op.start "a" 0, Op.stop 0 2500000, Op.start "b" 10, Op.stop 1 3])
    ⟨[Op.start "a" 0, Op.stop 0 2500000, Op.start "b" 10, Op.stop 1 3],
     rfl⟩
    ("b", [Event.mk "b" 10 (some 3) (some 999993)]) (by decide)
    (Event.mk "b" 10 (some 3) (some 999993)) (by decide)

/-- Running a concatenated call sequence runs the pieces in order. -/
theorem runOps_append (p : Profiler) (ops more : List Op) :
    runOps p (ops ++ more) = runOps (runOps p ops) more :=
  List.foldl_append _ _ _ _

/-- One call can only extend a name's finished sequence at its end. -/
theorem finished_extends_applyOp (p : Profiler) (op : Op) (n : String) :
    (alookup p.finished n).getD [] <+:
      (alookup (applyOp p op).finished n).getD [] := by
  cases op with
  | start nm t =>
    simp only [applyOp, Profiler.start]
    exact List.prefix_rfl
  | stop uid t =>
    cases hl : alookup p.running uid with
    | none =>
      simp only [applyOp, Profiler.stop, hl]
      exact List.prefix_rfl
    | some ev =>
      simp only [applyOp, Profiler.stop, hl]
      by_cases hn : n = ev.name
      · subst hn
        rw [alookup_save_self p.finished]
        exact ⟨_, rfl⟩
      · rw [alookup_save_ne p.finished
          { ev with end_time := some t,
                    duration := some ((t - ev.start_time) % 1000000) } n hn]
  | readFinished => exact List.prefix_rfl
  | readStats => exact List.prefix_rfl

/-- A whole call sequence can only extend a name's finished sequence at
its end. -/
theorem finished_extends_runOps (more : List Op) :
    ∀ (p : Profiler) (n : String),
      (alookup p.finished n).getD [] <+:
        (alookup (runOps p more).finished n).getD [] := by
  induction more with
  | nil => intro p n; exact List.prefix_rfl
  | cons op ops ih =>
    intro p n
    exact (finished_extends_applyOp p op n).trans (ih (applyOp p op) n)

/-- C9.  No operation removes or mutates finished entries: after any
further calls, each name's previously recorded finished sequence is an
unchanged initial segment of the new one — records already inserted keep
all their field values, and growth only happens at the end. -/
theorem finished_only_grows (ops more : List Op) (n : String) :
    (alookup (runOps Profiler.init ops).finished n).getD [] <+:
      (alookup (runOps Profiler.init (ops ++ more)).finished n).getD [] := by
  rw [runOps_append]
  exact finished_extends_runOps more (runOps Profiler.init ops) n

/-- On lists of length at most one — the empty and single-value summaries —
the two reducers coincide. -/
theorem reducers_agree_short (values : List Int) (h : values.length ≤ 1) :
    getStatsP2 values = getStatsP3 values := by
  cases values with
  | nil => rfl
  | cons a tl =>
    cases tl with
    | nil => rfl
    | cons b tl2 => simp at h
